import Mathlib

/-!
Shallow embedding of `MRT-Map/license-retriever` (`src/lib.rs`) and proofs about
its license-resolution chain, copy rules, unlicensed-package reporting and
serialization round-trip.

Strings are modelled as byte lists (`ByteStr`); `str` converts an ASCII Lean
string literal to its byte list. The network and the external HTML parser
(`tl`) are modelled as oracles: a `Net` maps a URL string to an `HttpResult`,
and each response carries the parse result of its body as an optional `Dom`
exposing exactly the queries the source performs (`query_selector "a"`,
`query_selector "a.js-navigation-open.Link--primary"`, the first `<code>`
block's inner text).
-/

deriving instance DecidableEq for Except

namespace LicenseRetrieverModel

/-- Byte strings: Rust `String`/`str` values seen as their byte sequences. -/
abbrev ByteStr := List Nat

/-- ASCII literal helper: the byte sequence of a Lean string literal
(codepoints; agrees with UTF-8 on ASCII). -/
def str (s : String) : ByteStr := s.data.map Char.toNat

/-- ASCII lowercasing of one byte, matching Rust `to_lowercase` on ASCII input
(the only inputs the comparisons in the source care about). -/
def lowerByte (b : Nat) : Nat := if 65 ≤ b ∧ b ≤ 90 then b + 32 else b

/-- ASCII lowercasing of a byte string. -/
def lowerAscii (s : ByteStr) : ByteStr := s.map lowerByte

/-- `pat` occurs as a contiguous subsequence of the input (Rust
`str::contains` with a literal pattern). -/
def containsSeq (pat : ByteStr) : ByteStr → Bool
  | [] => pat.isEmpty
  | b :: rest => pat.isPrefixOf (b :: rest) || containsSeq pat rest

/-- `a.to_lowercase().contains("license") || a.to_lowercase().contains("licence")`
(lib.rs lines 348 and 384). -/
def hasLicenseWord (s : ByteStr) : Bool :=
  containsSeq (str "license") (lowerAscii s) || containsSeq (str "licence") (lowerAscii s)

/-- Strip a leading `http://` or `https://` scheme, the `^https?://` part shared
by the three regexes in lib.rs lines 175-178. -/
def schemeSplit (s : ByteStr) : Option ByteStr :=
  if (str "https://").isPrefixOf s then some (s.drop 8)
  else if (str "http://").isPrefixOf s then some (s.drop 7)
  else none

/-- Helper for `DOCS_RS_REGEX`: some byte is `/` and `/source` occurs strictly
after it (the `(.*?)/(.*?)/source` part). -/
def slashThenSource : ByteStr → Bool
  | [] => false
  | b :: rest => (b == 47 && containsSeq (str "/source") rest) || slashThenSource rest

/-- `DOCS_RS_REGEX.is_match`: `^https?://docs\.rs/crate/(.*?)/(.*?)/source`
(lib.rs line 175). -/
def docsRsMatch (s : ByteStr) : Bool :=
  match schemeSplit s with
  | some rem => (str "docs.rs/crate/").isPrefixOf rem && slashThenSource (rem.drop 14)
  | none => false

/-- `GITHUB_HOME_PAGE_REGEX.is_match`: `^https?://github\.com/(.*?)/(.*)$`
(lib.rs line 178): scheme, the `github.com/` host, and at least one further `/`
separating the two groups. (URL strings are newline-free, so the
no-newline side conditions of `.` are dropped.) -/
def githubHomeMatch (s : ByteStr) : Bool :=
  match schemeSplit s with
  | some rem => (str "github.com/").isPrefixOf rem && (rem.drop 11).contains 47
  | none => false

/-- Split a byte string at the first occurrence of `pat`: `some (pre, post)`
with input = `pre ++ pat ++ post`, `pat` not occurring earlier. -/
def splitFirstAt (pat : ByteStr) : ByteStr → Option (ByteStr × ByteStr)
  | [] => if pat = [] then some ([], []) else none
  | b :: rest =>
    if pat.isPrefixOf (b :: rest) then some ([], (b :: rest).drop pat.length)
    else match splitFirstAt pat rest with
      | some (pre, post) => some (b :: pre, post)
      | none => none

/-- `GITHUB_FILE_REGEX.replace(s, "https://raw.githubusercontent.com/$1/$2/$3/$4")`
(lib.rs lines 176-177, 387): the regex
`^https?://github\.com/(.*?)/(.*?)/blob/(.*?)/(.*)` with lazy groups binds
group 1 up to the first `/`, group 2 up to the first `/blob/` after that,
group 3 up to the next `/`, group 4 the rest; if the pattern does not match,
`replace` returns the input unchanged. -/
def githubFileReplace (s : ByteStr) : ByteStr :=
  match schemeSplit s with
  | none => s
  | some rem =>
    if (str "github.com/").isPrefixOf rem then
      match splitFirstAt (str "/") (rem.drop 11) with
      | none => s
      | some (g1, rest1) =>
        match splitFirstAt (str "/blob/") rest1 with
        | none => s
        | some (g2, rest2) =>
          match splitFirstAt (str "/") rest2 with
          | none => s
          | some (g3, g4) =>
            str "https://raw.githubusercontent.com/" ++ g1 ++ str "/" ++ g2 ++
              str "/" ++ g3 ++ str "/" ++ g4
    else s

/-- `url::Url::parse`: succeeds exactly when the string carries a scheme
(relative strings fail with `RelativeUrlWithoutBase`); the parsed URL is
modelled as the string itself. -/
def urlParse (s : ByteStr) : Option ByteStr :=
  if containsSeq (str "://") s then some s else none

/-- The fields of `cargo_metadata::Package` the program reads (plus `id`, the
package's opaque graph identity). External read-only input. -/
structure Package where
  id : ByteStr
  name : ByteStr
  version : ByteStr
  repository : Option ByteStr
  license : Option ByteStr
  license_file : Option ByteStr
  manifest_path : ByteStr
  deriving DecidableEq, Repr

/-- `Config` (lib.rs lines 223-231); hash maps are modelled as association
lists (lookup = first matching key) and the hash set as a list.
`manifest_path` is omitted: `async_from_config` passes `None` to
`get_metadata` and never reads it. -/
structure Config where
  license_text_overrides : List (ByteStr × List ByteStr)
  license_url_overrides : List (ByteStr × List ByteStr)
  license_copying_crates : List (ByteStr × ByteStr)
  ignored_crates : List ByteStr
  panic_if_no_license_found : Bool
  deriving DecidableEq, Repr

/-- `HashMap::get` on an association list. -/
def lookupA (m : List (ByteStr × α)) (k : ByteStr) : Option α :=
  (m.find? (fun e => e.1 == k)).map (fun e => e.2)

/-- The `Error` enum (lib.rs lines 183-212), restricted to the variants the
embedded functions can produce; transport errors carry an opaque id. -/
inductive Error where
  | Http (e : Nat) (url : ByteStr)
  | Html
  | NotCratesIoFileList (url : ByteStr)
  | NotGithubHomePage (url : ByteStr)
  | CopierCrateNotFound (name : ByteStr)
  | CopiedCrateNotFound (name : ByteStr)
  deriving DecidableEq, Repr

/-- An anchor element as the scraping code sees it: its `href` attribute (if
present) and its inner text. -/
structure Anchor where
  href : Option ByteStr
  innerText : ByteStr
  deriving DecidableEq, Repr

/-- The result of `tl::parse` on a response body, exposing exactly the three
queries the source performs. `anchors` is `query_selector "a"`, `navAnchors`
is `query_selector "a.js-navigation-open.Link--primary"` — `none` models the
selector finding nothing — and `codeText` is the first `<code>` element's
inner text, if any. -/
structure Dom where
  anchors : Option (List Anchor)
  navAnchors : Option (List Anchor)
  codeText : Option ByteStr
  deriving DecidableEq, Repr

/-- Outcome of one `surf::get`: a transport-level failure (opaque id), or a
response with a status code, a body, and the body's parse result (`none`
models a `tl::ParseError`). -/
inductive HttpResult where
  | fail (e : Nat)
  | resp (status : Nat) (body : ByteStr) (dom : Option Dom)
  deriving DecidableEq, Repr

/-- The network oracle: a deterministic map from URL to result. -/
structure Net where
  get : ByteStr → HttpResult

/-- `get_license_text_from_url` (lib.rs lines 288-316). Returns the result
together with the trace of URLs requested (the function issues one GET for
the status check and, on a non-404 response, a second one for the body). -/
def get_license_text_from_url (net : Net) (url : ByteStr) :
    Except Error (Option ByteStr) × List ByteStr :=
  match net.get url with
  | .fail e => (.error (.Http e url), [url])
  | .resp status body dom =>
    if status == 404 then (.ok none, [url])
    else
      if docsRsMatch url then
        match dom with
        | some d =>
          match d.codeText with
          | some t => (.ok (some t), [url, url])
          | none => (.ok (some body), [url, url])
        | none => (.ok (some body), [url, url])
      else (.ok (some body), [url, url])

/-- `future::try_join_all` over `get_license_text_from_url` calls, sequenced:
first error wins, otherwise the list of optional texts in order; the traces
of the individual fetches are concatenated. -/
def fetch_all (net : Net) : List ByteStr → Except Error (List (Option ByteStr)) × List ByteStr
  | [] => (.ok [], [])
  | u :: us =>
    let (r, t) := get_license_text_from_url net u
    match r with
    | .error e => (.error e, t)
    | .ok o =>
      let (rs, ts) := fetch_all net us
      match rs with
      | .error e => (.error e, t ++ ts)
      | .ok os => (.ok (o :: os), t ++ ts)

/-- The docs.rs listing URL built in lib.rs lines 322-330. -/
def cratesListUrl (package : Package) (use_latest : Bool) : ByteStr :=
  str "https://docs.rs/crate/" ++ package.name ++ str "/" ++
    (if use_latest then str "latest" else package.version) ++ str "/source/"

/-- `get_license_texts_from_crates_io_package` (lib.rs lines 318-365): GET the
listing URL; 404 ⇒ empty; parse error ⇒ `Error.Html`; `query_selector "a"`
finding nothing ⇒ `NotCratesIoFileList`; otherwise keep hrefs containing
license/licence, strip the `./` prefix, join onto the listing URL (the base
ends in `/`, so `Url::join` is concatenation), fetch each and flatten away
the `None`s. -/
def get_license_texts_from_crates_io_package (net : Net) (package : Package)
    (use_latest : Bool) : Except Error (List ByteStr) × List ByteStr :=
  let list_url := cratesListUrl package use_latest
  match net.get list_url with
  | .fail e => (.error (.Http e list_url), [list_url])
  | .resp status _body dom =>
    if status == 404 then (.ok [], [list_url])
    else
      match dom with
      | none => (.error .Html, [list_url])
      | some d =>
        match d.anchors with
        | none => (.error (.NotCratesIoFileList list_url), [list_url])
        | some ancs =>
          let hrefs := ancs.filterMap (fun a => a.href)
          let kept := hrefs.filter hasLicenseWord
          let rels := kept.filterMap
            (fun a => if (str "./").isPrefixOf a then some (a.drop 2) else none)
          let urls := rels.map (fun a => list_url ++ a)
          let (r, t) := fetch_all net urls
          (match r with
           | .error e => .error e
           | .ok os => .ok (os.filterMap id), list_url :: t)

/-- `get_license_texts_from_github_repo` (lib.rs lines 367-400): GET the repo
home page; 404 ⇒ empty; parse error ⇒ `Error.Html`; the
`a.js-navigation-open.Link--primary` selector finding nothing ⇒
`NotGithubHomePage`; otherwise take each anchor's **inner text**, keep those
containing license/licence, apply `GITHUB_FILE_REGEX.replace` and
`Url::parse().ok()` to that same inner text, fetch each and flatten. -/
def get_license_texts_from_github_repo (net : Net) (url : ByteStr) :
    Except Error (List ByteStr) × List ByteStr :=
  match net.get url with
  | .fail e => (.error (.Http e url), [url])
  | .resp status _body dom =>
    if status == 404 then (.ok [], [url])
    else
      match dom with
      | none => (.error .Html, [url])
      | some d =>
        match d.navAnchors with
        | none => (.error (.NotGithubHomePage url), [url])
        | some ancs =>
          let texts := ancs.map (fun a => a.innerText)
          let kept := texts.filter hasLicenseWord
          let urls := kept.filterMap (fun a => urlParse (githubFileReplace a))
          let (r, t) := fetch_all net urls
          (match r with
           | .error e => .error e
           | .ok os => .ok (os.filterMap id), url :: t)

/-- The per-package resolution states of spec §4.5. `localAndRepo` and
`corpusLookup` are the states the spec lists; the code-derived chain below
shows which of them are ever entered. -/
inductive Step where
  | overrideText
  | overrideUrl
  | localAndRepo
  | indexExact
  | indexLatest
  | hostingScrape
  | corpusLookup
  deriving DecidableEq, Repr

/-- `get_license_texts_from_package` (lib.rs lines 402-451): text override,
else url override, else exact-version index lookup, then — only on an empty
result — the `latest` lookup, then — only on an empty result and when the
package's repository string parses as a URL matching
`GITHUB_HOME_PAGE_REGEX` — the hosting scrape. Returns the result, the URL
trace, and the list of states entered. -/
def get_license_texts_from_package (net : Net) (package : Package) (config : Config) :
    Except Error (List ByteStr) × List ByteStr × List Step :=
  match lookupA config.license_text_overrides package.name with
  | some license => (.ok license, [], [.overrideText])
  | none =>
    match lookupA config.license_url_overrides package.name with
    | some urls =>
      let (r, t) := fetch_all net urls
      (match r with
       | .error e => .error e
       | .ok os => .ok (os.filterMap id), t, [.overrideUrl])
    | none =>
      let (r1, t1) := get_license_texts_from_crates_io_package net package false
      match r1 with
      | .error e => (.error e, t1, [.indexExact])
      | .ok l1 =>
        if l1.isEmpty then
          let (r2, t2) := get_license_texts_from_crates_io_package net package true
          match r2 with
          | .error e => (.error e, t1 ++ t2, [.indexExact, .indexLatest])
          | .ok l2 =>
            if l2.isEmpty then
              match package.repository.bind urlParse with
              | some repo =>
                if githubHomeMatch repo then
                  let (r3, t3) := get_license_texts_from_github_repo net repo
                  (r3, t1 ++ t2 ++ t3, [.indexExact, .indexLatest, .hostingScrape])
                else (.ok l2, t1 ++ t2, [.indexExact, .indexLatest])
              | none => (.ok l2, t1 ++ t2, [.indexExact, .indexLatest])
            else (.ok l2, t1 ++ t2, [.indexExact, .indexLatest])
        else (.ok l1, t1, [.indexExact])

/-- One node of the metadata's resolve graph: a package id and its direct
dependency ids. -/
structure ResolveNode where
  id : ByteStr
  deps : List ByteStr
  deriving DecidableEq, Repr

/-- The optional resolution info of `cargo_metadata::Metadata`. -/
structure ResolveData where
  root : Option ByteStr
  nodes : List ResolveNode
  deriving DecidableEq, Repr

/-- The parts of `cargo_metadata::Metadata` relevant here: the package list
and the optional resolve graph. -/
structure Metadata where
  packages : List Package
  resolve : Option ResolveData
  deriving DecidableEq, Repr

/-- Lines 458-468: `try_join_all` over
`get_license_texts_from_package` for every package of `meta.packages`,
zipped back with the packages in order (`zip_eq` + `map`); the first
error aborts. -/
def resolve_all_packages (net : Net) (config : Config) :
    List Package → Except Error (List (Package × List ByteStr))
  | [] => .ok []
  | p :: ps =>
    match (get_license_texts_from_package net p config).1 with
    | .error e => .error e
    | .ok l =>
      match resolve_all_packages net config ps with
      | .error e => .error e
      | .ok rest => .ok ((p, l) :: rest)

/-- `sorted_by_key(|(_, a)| a.len()).last()` over the matching entries'
texts: the stable ascending sort by length makes `last()` the *last*
entry of maximal length, so the fold keeps the later element on ties. -/
def pickCopied : List (List ByteStr) → Option (List ByteStr)
  | [] => none
  | x :: xs =>
    match pickCopied xs with
    | none => some x
    | some y => some (if y.length < x.length then x else y)

/-- `licenses.iter_mut().find(|(p, _)| p.name == copier)` followed by
`*copier_licenses = copied_licenses`: replace the texts of the first entry
with the given name. -/
def setFirst : List (Package × List ByteStr) → ByteStr → List ByteStr →
    List (Package × List ByteStr)
  | [], _, _ => []
  | (p, l) :: rest, name, newL =>
    if p.name == name then (p, newL) :: rest
    else (p, l) :: setFirst rest name newL

/-- One iteration of the copy loop (lib.rs lines 470-483) for the rule
`(copier, copied)`. -/
def applyCopyRule (licenses : List (Package × List ByteStr)) (rule : ByteStr × ByteStr) :
    Except Error (List (Package × List ByteStr)) :=
  match pickCopied (((licenses.filter (fun e => e.1.name == rule.2)).map (fun e => e.2))) with
  | none => .error (.CopiedCrateNotFound rule.2)
  | some copiedL =>
    if licenses.any (fun e => e.1.name == rule.1) then .ok (setFirst licenses rule.1 copiedL)
    else .error (.CopierCrateNotFound rule.1)

/-- The whole copy loop over the configured rules, first error aborting. -/
def applyCopyRules : List (ByteStr × ByteStr) → List (Package × List ByteStr) →
    Except Error (List (Package × List ByteStr))
  | [], ls => .ok ls
  | r :: rs, ls =>
    match applyCopyRule ls r with
    | .error e => .error e
    | .ok ls2 => applyCopyRules rs ls2

/-- `itertools` `.join(sep)` on formatted entries. -/
def joinStrs (sep : ByteStr) : List ByteStr → ByteStr
  | [] => []
  | [x] => x
  | x :: y :: xs => x ++ sep ++ joinStrs sep (y :: xs)

/-- `format!("{} {}", package.name, package.version)`. -/
def formatPackage (p : Package) : ByteStr := p.name ++ str " " ++ p.version

/-- Lines 485-490: the formatted entries of packages whose resolved texts are
empty and whose name is not ignored. -/
def unlicensedEntries (config : Config) (licenses : List (Package × List ByteStr)) :
    List ByteStr :=
  ((licenses.filter (fun e => e.2.isEmpty)).filter
      (fun e => !(config.ignored_crates.contains e.1.name))).map
    (fun e => formatPackage e.1)

/-- Outcome of `async_from_config`: an `Err`, a `panic!`, or `Ok` (with the
warning message that was logged, if any). -/
inductive RunResult where
  | err (e : Error)
  | panicked (msg : ByteStr)
  | ok (warning : Option ByteStr) (licenses : List (Package × List ByteStr))
  deriving DecidableEq, Repr

/-- `LicenseRetriever::async_from_config` (lib.rs lines 456-501), with the
metadata supplied as an oracle (the code shells out to `cargo metadata`).
Note that `meta.resolve` is never consulted: every package of
`meta.packages` is resolved, in order. -/
def async_from_config (net : Net) (meta : Metadata) (config : Config) : RunResult :=
  match resolve_all_packages net config meta.packages with
  | .error e => .err e
  | .ok licenses =>
    match applyCopyRules config.license_copying_crates licenses with
    | .error e => .err e
    | .ok licenses =>
      let joined := joinStrs (str ", ") (unlicensedEntries config licenses)
      if joined.isEmpty then .ok none licenses
      else
        let msg := str "No licenses found for: " ++ joined
        if config.panic_if_no_license_found then .panicked msg
        else .ok (some msg) licenses

/-- The package selection the orchestrator actually performs (lib.rs lines
458-462): it iterates `meta.packages` directly. -/
def selectedPackages (meta : Metadata) : List Package := meta.packages

/-- Modelled from the spec: the Graph Walker of §4.1 (absent from src) —
breadth-first traversal from the resolution root: pop an id from the
frontier, resolve it to a package (skip silently if not found), append it,
resolve its graph node (skip silently if not found) and enqueue every
direct-dependency id not already seen; with no resolution info, all
packages in their original order. `fuel` bounds the iterations; the
traversal visits each id at most once, so any fuel past the total number
of ids is enough. -/
def specWalkBfs (meta : Metadata) (nodes : List ResolveNode) :
    Nat → List ByteStr → List ByteStr → List Package
  | 0, _, _ => []
  | _ + 1, [], _ => []
  | fuel + 1, i :: frontier, seen =>
    let here := (meta.packages.find? (fun p => p.id == i)).toList
    let deps :=
      match nodes.find? (fun n => n.id == i) with
      | some n => n.deps.filter (fun d => !(seen.contains d) && !(frontier.contains d))
      | none => []
    here ++ specWalkBfs meta nodes fuel (frontier ++ deps) (i :: seen)

/-- Modelled from the spec: `select_packages` of §4.1. -/
def specSelectPackages (meta : Metadata) : List Package :=
  match meta.resolve with
  | none => meta.packages
  | some r =>
    match r.root with
    | none => meta.packages
    | some root =>
      specWalkBfs meta r.nodes
        (meta.packages.length + (r.nodes.map (fun n => n.deps.length)).sum + 1) [root] []

/-! MessagePack model of `rmp_serde::to_vec_named` / `rmp_serde::from_slice`
for `Vec<(Package, Cow<[String]>)>` (lib.rs lines 505-507 and 519-521): the
vector and each tuple become arrays, `Package` a map keyed by field names,
strings the minimal `str` format, `Option` either `nil` or the value. The
decoder reads back exactly this shape (rmp_serde's named-struct
deserializer also accepts reordered keys; the encoder always emits this
canonical order). -/

/-- Big-endian 16-bit length. -/
def encNat16 (n : Nat) : List Nat := [n / 256 % 256, n % 256]

/-- Big-endian 32-bit length. -/
def encNat32 (n : Nat) : List Nat :=
  [n / 16777216 % 256, n / 65536 % 256, n / 256 % 256, n % 256]

/-- Minimal MessagePack `str` encoding: fixstr / str8 / str16 / str32. -/
def encStr (s : ByteStr) : List Nat :=
  if s.length < 32 then (160 + s.length) :: s
  else if s.length < 256 then 217 :: s.length :: s
  else if s.length < 65536 then 218 :: (encNat16 s.length ++ s)
  else 219 :: (encNat32 s.length ++ s)

/-- Minimal MessagePack array header: fixarray / array16 / array32. -/
def encArrayHeader (n : Nat) : List Nat :=
  if n < 16 then [144 + n]
  else if n < 65536 then 220 :: encNat16 n
  else 221 :: encNat32 n

/-- Minimal MessagePack map header: fixmap / map16 / map32. -/
def encMapHeader (n : Nat) : List Nat :=
  if n < 16 then [128 + n]
  else if n < 65536 then 222 :: encNat16 n
  else 223 :: encNat32 n

/-- `Option<String>`: `nil` (0xc0) or the string. -/
def encOptStr : Option ByteStr → List Nat
  | none => [192]
  | some s => encStr s

/-- `Cow<[String]>` as an array of strings. -/
def encTexts (ts : List ByteStr) : List Nat :=
  encArrayHeader ts.length ++ (ts.map encStr).flatten

/-- `Package` as a named map over its fields, in declaration order. -/
def encPackage (p : Package) : List Nat :=
  encMapHeader 7 ++
  encStr (str "id") ++ encStr p.id ++
  encStr (str "name") ++ encStr p.name ++
  encStr (str "version") ++ encStr p.version ++
  encStr (str "repository") ++ encOptStr p.repository ++
  encStr (str "license") ++ encOptStr p.license ++
  encStr (str "license_file") ++ encOptStr p.license_file ++
  encStr (str "manifest_path") ++ encStr p.manifest_path

/-- A `(Package, Cow<[String]>)` tuple as a two-element array. -/
def encPair (e : Package × List ByteStr) : List Nat :=
  encArrayHeader 2 ++ encPackage e.1 ++ encTexts e.2

/-- `LicenseRetriever::to_bytes`. -/
def to_bytes (lr : List (Package × List ByteStr)) : List Nat :=
  encArrayHeader lr.length ++ (lr.map encPair).flatten

/-- Read a `str` header, returning the payload length and the remaining
bytes. -/
def decStrHeader : List Nat → Option (Nat × List Nat)
  | b :: rest =>
    if 160 ≤ b ∧ b ≤ 191 then some (b - 160, rest)
    else if b = 217 then
      match rest with
      | l :: r => some (l, r)
      | [] => none
    else if b = 218 then
      match rest with
      | h :: lo :: r => some (h * 256 + lo, r)
      | _ => none
    else if b = 219 then
      match rest with
      | a :: b2 :: c :: d :: r => some (a * 16777216 + b2 * 65536 + c * 256 + d, r)
      | _ => none
    else none
  | [] => none

/-- Read an array header. -/
def decArrayHeader : List Nat → Option (Nat × List Nat)
  | b :: rest =>
    if 144 ≤ b ∧ b ≤ 159 then some (b - 144, rest)
    else if b = 220 then
      match rest with
      | h :: lo :: r => some (h * 256 + lo, r)
      | _ => none
    else if b = 221 then
      match rest with
      | a :: b2 :: c :: d :: r => some (a * 16777216 + b2 * 65536 + c * 256 + d, r)
      | _ => none
    else none
  | [] => none

/-- Read a map header. -/
def decMapHeader : List Nat → Option (Nat × List Nat)
  | b :: rest =>
    if 128 ≤ b ∧ b ≤ 143 then some (b - 128, rest)
    else if b = 222 then
      match rest with
      | h :: lo :: r => some (h * 256 + lo, r)
      | _ => none
    else if b = 223 then
      match rest with
      | a :: b2 :: c :: d :: r => some (a * 16777216 + b2 * 65536 + c * 256 + d, r)
      | _ => none
    else none
  | [] => none

/-- Read one string value. -/
def decStr (bs : List Nat) : Option (ByteStr × List Nat) :=
  match decStrHeader bs with
  | some (l, r) => if l ≤ r.length then some (r.take l, r.drop l) else none
  | none => none

/-- Read an optional string: `nil` or a string. -/
def decOptStr (bs : List Nat) : Option (Option ByteStr × List Nat) :=
  match bs with
  | b :: r =>
    if b = 192 then some (none, r)
    else (decStr (b :: r)).map (fun e => (some e.1, e.2))
  | [] => none

/-- Read `n` consecutive strings. -/
def decStrs : Nat → List Nat → Option (List ByteStr × List Nat)
  | 0, bs => some ([], bs)
  | n + 1, bs =>
    match decStr bs with
    | some (s, r) => (decStrs n r).map (fun e => (s :: e.1, e.2))
    | none => none

/-- Read an array of strings. -/
def decTexts (bs : List Nat) : Option (List ByteStr × List Nat) :=
  match decArrayHeader bs with
  | some (n, r) => decStrs n r
  | none => none

/-- Read one named string field: the key must match. -/
def decField (key : ByteStr) (bs : List Nat) : Option (ByteStr × List Nat) :=
  match decStr bs with
  | some (k, r) => if k = key then decStr r else none
  | none => none

/-- Read one named optional-string field. -/
def decOptField (key : ByteStr) (bs : List Nat) : Option (Option ByteStr × List Nat) :=
  match decStr bs with
  | some (k, r) => if k = key then decOptStr r else none
  | none => none

/-- Read one `Package`. -/
def decPackage (bs : List Nat) : Option (Package × List Nat) :=
  match decMapHeader bs with
  | some (n, r) =>
    if n = 7 then
      match decField (str "id") r with
      | some (idv, r) =>
        match decField (str "name") r with
        | some (namev, r) =>
          match decField (str "version") r with
          | some (versionv, r) =>
            match decOptField (str "repository") r with
            | some (repov, r) =>
              match decOptField (str "license") r with
              | some (licv, r) =>
                match decOptField (str "license_file") r with
                | some (licfv, r) =>
                  match decField (str "manifest_path") r with
                  | some (manv, r) =>
                    some (⟨idv, namev, versionv, repov, licv, licfv, manv⟩, r)
                  | none => none
                | none => none
              | none => none
            | none => none
          | none => none
        | none => none
      | none => none
    else none
  | none => none

/-- Read one `(Package, Cow<[String]>)` pair. -/
def decPair (bs : List Nat) : Option ((Package × List ByteStr) × List Nat) :=
  match decArrayHeader bs with
  | some (n, r) =>
    if n = 2 then
      match decPackage r with
      | some (p, r) =>
        match decTexts r with
        | some (ts, r) => some ((p, ts), r)
        | none => none
      | none => none
    else none
  | none => none

/-- Read `n` consecutive pairs. -/
def decPairs : Nat → List Nat → Option (List (Package × List ByteStr) × List Nat)
  | 0, bs => some ([], bs)
  | n + 1, bs =>
    match decPair bs with
    | some (e, r) => (decPairs n r).map (fun x => (e :: x.1, x.2))
    | none => none

/-- `LicenseRetriever::from_bytes`. -/
def from_bytes (bs : List Nat) : Option (List (Package × List ByteStr)) :=
  match decArrayHeader bs with
  | some (n, r) => (decPairs n r).map (fun x => x.1)
  | none => none

/-- A byte string Rust can build: its length fits the `str32` format. -/
def strWF (s : ByteStr) : Prop := s.length < 4294967296

/-- Optional-string well-formedness. -/
def optStrWF : Option ByteStr → Prop
  | none => True
  | some s => strWF s

/-- Package well-formedness: every field length fits 32 bits. -/
def packageWF (p : Package) : Prop :=
  strWF p.id ∧ strWF p.name ∧ strWF p.version ∧ optStrWF p.repository ∧
    optStrWF p.license ∧ optStrWF p.license_file ∧ strWF p.manifest_path

/-- Result well-formedness: all list lengths and string lengths fit 32 bits. -/
def lrWF (lr : List (Package × List ByteStr)) : Prop :=
  lr.length < 4294967296 ∧
    ∀ e ∈ lr, packageWF e.1 ∧ e.2.length < 4294967296 ∧ ∀ s ∈ e.2, strWF s

instance : DecidablePred strWF := fun s => inferInstanceAs (Decidable (_ < _))

instance : ∀ o, Decidable (optStrWF o) := fun o => by
  cases o <;> simp only [optStrWF] <;> infer_instance

instance : DecidablePred packageWF := fun p => inferInstanceAs (Decidable (_ ∧ _))

instance : DecidablePred lrWF := fun lr => inferInstanceAs (Decidable (_ ∧ _))

/-! Concrete fixtures used by witnesses and counterexamples. -/

/-- A sample package with no repository. -/
def pkgFoo : Package := ⟨str "foo-id", str "foo", str "1.2.3", none, none, none, str "/m"⟩

/-- A network where every URL answers 404. -/
def netDown : Net := ⟨fun _ => .resp 404 [] none⟩

/-- A network where every URL answers 200 with a parseable page on which both
selectors find nothing. -/
def netNoAnchors : Net := ⟨fun _ => .resp 200 [] (some ⟨none, none, none⟩)⟩

/-- The empty configuration. -/
def cfgEmpty : Config := ⟨[], [], [], [], false⟩

/-- A configuration overriding `foo`'s license text with the empty list. -/
def cfgOverrideFooEmpty : Config := ⟨[(str "foo", [])], [], [], [], false⟩

/-- C2: a package whose name has a license-text override resolves to exactly
that override — even an empty one — with no network request and no further
state: the chain is terminal at the text-override state. -/
theorem override_text_terminal (net : Net) (package : Package) (config : Config)
    (license : List ByteStr)
    (h : lookupA config.license_text_overrides package.name = some license) :
    get_license_texts_from_package net package config =
      (.ok license, [], [Step.overrideText]) := by
  unfold get_license_texts_from_package
  rw [h]

/-- Witness for `override_text_terminal`: the empty override of `foo` is
respected, with an empty request trace. -/
theorem override_text_terminal_witness :
    get_license_texts_from_package netDown pkgFoo cfgOverrideFooEmpty =
      (.ok [], [], [Step.overrideText]) :=
  override_text_terminal netDown pkgFoo cfgOverrideFooEmpty [] (by decide)

/-- C1 counterexample: resolving a package with no override whose index
lookups both return empty ends the chain at once — the `LocalAndRepo` and
`CorpusLookup` states of the claimed sequence are never entered (they do not
exist in the code's chain). -/
theorem chain_states_counterexample :
    (get_license_texts_from_package netDown pkgFoo cfgEmpty).2.2 =
      [Step.indexExact, Step.indexLatest] ∧
    Step.localAndRepo ∉ (get_license_texts_from_package netDown pkgFoo cfgEmpty).2.2 ∧
    Step.corpusLookup ∉ (get_license_texts_from_package netDown pkgFoo cfgEmpty).2.2 := by
  decide

/-- The blob-view URL carried by the `href` of the license anchor in the C9
fixture page. -/
def blobHref : ByteStr := str "https://github.com/o/r/blob/main/LICENSE"

/-- A network whose `https://github.com/o/r` home page contains exactly one
primary-file-row anchor: inner text `LICENSE`, href the blob-view URL; every
other URL (in particular the raw-content URL) answers with a license text. -/
def netGithubPage : Net :=
  ⟨fun u =>
    if u = str "https://github.com/o/r" then
      .resp 200 [] (some ⟨none, some [⟨some blobHref, str "LICENSE"⟩], none⟩)
    else .resp 200 (str "MIT TEXT") (some ⟨none, none, none⟩)⟩

/-- C9: the hosting scrape applies the blob-to-raw URL rewrite to the
anchor's *inner text* instead of its href. On a page with one anchor (text
`LICENSE`, href a blob-view URL) the scrape requests nothing beyond the home
page and returns empty, although rewriting the href would have produced the
raw-content URL — the inner text neither matches the rewrite pattern nor
parses as a URL. -/
theorem hosting_scrape_rewrites_inner_text :
    get_license_texts_from_github_repo netGithubPage (str "https://github.com/o/r") =
      (.ok [], [str "https://github.com/o/r"]) ∧
    githubFileReplace blobHref = str "https://raw.githubusercontent.com/o/r/main/LICENSE" ∧
    githubFileReplace (str "LICENSE") = str "LICENSE" ∧
    urlParse (githubFileReplace (str "LICENSE")) = none := by
  decide

/-- C1 (amended): for a package with no override the chain is
`IndexExact → IndexLatest → HostingScrape`, each state entered only when the
previous one succeeded with an empty result (and the scrape additionally
only when the repository string parses as a URL matching the GitHub
home-page pattern); a non-empty result is returned as-is and stops the
chain; the `LocalAndRepo` and `CorpusLookup` states of the spec are never
entered. -/
theorem chain_state_machine (net : Net) (package : Package) (config : Config)
    (h1 : lookupA config.license_text_overrides package.name = none)
    (h2 : lookupA config.license_url_overrides package.name = none) :
    (get_license_texts_from_package net package config).2.2.head? = some Step.indexExact ∧
    Step.localAndRepo ∉ (get_license_texts_from_package net package config).2.2 ∧
    Step.corpusLookup ∉ (get_license_texts_from_package net package config).2.2 ∧
    (Step.indexLatest ∈ (get_license_texts_from_package net package config).2.2 ↔
      (get_license_texts_from_crates_io_package net package false).1 = .ok []) ∧
    (∀ l, (get_license_texts_from_crates_io_package net package false).1 = .ok l → l ≠ [] →
      (get_license_texts_from_package net package config).1 = .ok l ∧
      (get_license_texts_from_package net package config).2.2 = [Step.indexExact]) ∧
    (Step.hostingScrape ∈ (get_license_texts_from_package net package config).2.2 ↔
      ((get_license_texts_from_crates_io_package net package false).1 = .ok [] ∧
        (get_license_texts_from_crates_io_package net package true).1 = .ok [] ∧
        ∃ repo, package.repository.bind urlParse = some repo ∧ githubHomeMatch repo = true)) ∧
    (∀ l, (get_license_texts_from_crates_io_package net package false).1 = .ok [] →
      (get_license_texts_from_crates_io_package net package true).1 = .ok l → l ≠ [] →
      (get_license_texts_from_package net package config).1 = .ok l ∧
      (get_license_texts_from_package net package config).2.2 =
        [Step.indexExact, Step.indexLatest]) := by
  unfold get_license_texts_from_package
  rw [h1, h2]
  rcases hE : get_license_texts_from_crates_io_package net package false with ⟨r1, t1⟩
  rcases r1 with e1 | l1
  · simp
  · rcases hl1 : l1.isEmpty with _ | _
    · have hne : l1 ≠ [] := by
        intro h; subst h; simp at hl1
      simp [hl1, hne]
    · have hleq : l1 = [] := by
        cases l1 with
        | nil => rfl
        | cons a as => simp at hl1
      subst hleq
      rcases hL : get_license_texts_from_crates_io_package net package true with ⟨r2, t2⟩
      rcases r2 with e2 | l2
      · simp [hL]
      · rcases hl2 : l2.isEmpty with _ | _
        · have hne : l2 ≠ [] := by
            intro h; subst h; simp at hl2
          simp [hl2, hL, hne]
        · have hleq : l2 = [] := by
            cases l2 with
            | nil => rfl
            | cons a as => simp at hl2
          subst hleq
          rcases hR : package.repository.bind urlParse with _ | repo
          · simp [hR, hL]
          · rcases hG : githubHomeMatch repo with _ | _
            · simp [hR, hG, hL]
            · simp [hR, hG, hL]

/-- Witness for `chain_state_machine` at a package with no override whose
exact-version listing answers 404: the conjuncts instantiate to the concrete
run. -/
theorem chain_state_machine_witness :
    (get_license_texts_from_package netDown pkgFoo cfgEmpty).2.2.head? =
      some Step.indexExact ∧
    Step.indexLatest ∈ (get_license_texts_from_package netDown pkgFoo cfgEmpty).2.2 :=
  ⟨(chain_state_machine netDown pkgFoo cfgEmpty (by decide) (by decide)).1,
    ((chain_state_machine netDown pkgFoo cfgEmpty (by decide) (by decide)).2.2.2.1).2
      (by decide)⟩

/-- C10: a package with no override whose index lookups both returned empty
and whose repository is absent, unparseable, or not a GitHub home page skips
the hosting scrape silently: the result is the empty result of the previous
state and no scrape state is entered. -/
theorem hosting_scrape_skipped (net : Net) (package : Package) (config : Config)
    (h1 : lookupA config.license_text_overrides package.name = none)
    (h2 : lookupA config.license_url_overrides package.name = none)
    (h3 : (get_license_texts_from_crates_io_package net package false).1 = .ok [])
    (h4 : (get_license_texts_from_crates_io_package net package true).1 = .ok [])
    (h5 : ∀ repo, package.repository.bind urlParse = some repo →
      githubHomeMatch repo = false) :
    (get_license_texts_from_package net package config).1 = .ok [] ∧
    (get_license_texts_from_package net package config).2.2 =
      [Step.indexExact, Step.indexLatest] := by
  unfold get_license_texts_from_package
  rw [h1, h2]
  rcases hE : get_license_texts_from_crates_io_package net package false with ⟨r1, t1⟩
  rw [hE] at h3
  simp only at h3
  subst h3
  rcases hL : get_license_texts_from_crates_io_package net package true with ⟨r2, t2⟩
  rw [hL] at h4
  simp only at h4
  subst h4
  rcases hR : package.repository.bind urlParse with _ | repo
  · simp [hR]
  · simp [hR, h5 repo hR]

/-- Witness for `hosting_scrape_skipped`: `foo` has no repository and both
docs.rs listings answer 404. -/
theorem hosting_scrape_skipped_witness :
    (get_license_texts_from_package netDown pkgFoo cfgEmpty).1 = .ok [] ∧
    (get_license_texts_from_package netDown pkgFoo cfgEmpty).2.2 =
      [Step.indexExact, Step.indexLatest] :=
  hosting_scrape_skipped netDown pkgFoo cfgEmpty (by decide) (by decide) (by decide)
    (by decide) (by intro repo h; simp [pkgFoo] at h)

/-- C4: a 404 answer is soft — a single-file fetch yields no document, and
an index or hosting listing yields the empty sequence — and with no override
a 404 on the exact-version listing makes the chain advance to the `latest`
state; any transport-level failure instead aborts with the `Http` error. -/
theorem http_404_soft_transport_hard (net : Net) (url : ByteStr) (package : Package)
    (config : Config) (use_latest : Bool) (e : Nat) (body : ByteStr) (dom : Option Dom)
    (h1 : lookupA config.license_text_overrides package.name = none)
    (h2 : lookupA config.license_url_overrides package.name = none) :
    (net.get url = .resp 404 body dom →
      get_license_text_from_url net url = (.ok none, [url])) ∧
    (net.get (cratesListUrl package use_latest) = .resp 404 body dom →
      get_license_texts_from_crates_io_package net package use_latest =
        (.ok [], [cratesListUrl package use_latest])) ∧
    (net.get url = .resp 404 body dom →
      get_license_texts_from_github_repo net url = (.ok [], [url])) ∧
    (net.get (cratesListUrl package false) = .resp 404 body dom →
      Step.indexLatest ∈ (get_license_texts_from_package net package config).2.2) ∧
    (net.get url = .fail e →
      get_license_text_from_url net url = (.error (.Http e url), [url])) ∧
    (net.get (cratesListUrl package use_latest) = .fail e →
      get_license_texts_from_crates_io_package net package use_latest =
        (.error (.Http e (cratesListUrl package use_latest)),
          [cratesListUrl package use_latest])) ∧
    (net.get url = .fail e →
      get_license_texts_from_github_repo net url = (.error (.Http e url), [url])) := by
  refine ⟨?_, ?_, ?_, ?_, ?_, ?_, ?_⟩
  · intro h
    unfold get_license_text_from_url
    simp only [h]
    simp
  · intro h
    unfold get_license_texts_from_crates_io_package
    simp only [h]
    simp
  · intro h
    unfold get_license_texts_from_github_repo
    simp only [h]
    simp
  · intro h
    have hex : (get_license_texts_from_crates_io_package net package false).1 = .ok [] := by
      unfold get_license_texts_from_crates_io_package
      simp only [h]
      simp
    exact ((chain_state_machine net package config h1 h2).2.2.2.1).2 hex
  · intro h
    unfold get_license_text_from_url
    simp only [h]
  · intro h
    unfold get_license_texts_from_crates_io_package
    simp only [h]
  · intro h
    unfold get_license_texts_from_github_repo
    simp only [h]

/-- Witness for `http_404_soft_transport_hard` on the all-404 network. -/
theorem http_404_soft_transport_hard_witness :
    get_license_text_from_url netDown (str "https://e.com/L") =
      (.ok none, [str "https://e.com/L"]) ∧
    get_license_texts_from_crates_io_package netDown pkgFoo false =
      (.ok [], [cratesListUrl pkgFoo false]) ∧
    Step.indexLatest ∈ (get_license_texts_from_package netDown pkgFoo cfgEmpty).2.2 :=
  ⟨(http_404_soft_transport_hard netDown (str "https://e.com/L") pkgFoo cfgEmpty false 0 []
      none (by decide) (by decide)).1 rfl,
    (http_404_soft_transport_hard netDown (str "https://e.com/L") pkgFoo cfgEmpty false 0 []
      none (by decide) (by decide)).2.1 rfl,
    (http_404_soft_transport_hard netDown (str "https://e.com/L") pkgFoo cfgEmpty false 0 []
      none (by decide) (by decide)).2.2.2.1 rfl⟩

/-- C6: a non-404 listing or hosting page on which the expected anchor
selector finds nothing is a hard error naming the URL
(`NotCratesIoFileList` / `NotGithubHomePage`), never an empty success. -/
theorem selector_missing_hard_error (net : Net) (url : ByteStr) (package : Package)
    (use_latest : Bool) (status : Nat) (body : ByteStr) (d : Dom)
    (hs : status ≠ 404) :
    (net.get (cratesListUrl package use_latest) = .resp status body (some d) →
      d.anchors = none →
      get_license_texts_from_crates_io_package net package use_latest =
        (.error (.NotCratesIoFileList (cratesListUrl package use_latest)),
          [cratesListUrl package use_latest])) ∧
    (net.get url = .resp status body (some d) → d.navAnchors = none →
      get_license_texts_from_github_repo net url =
        (.error (.NotGithubHomePage url), [url])) := by
  constructor
  · intro h ha
    unfold get_license_texts_from_crates_io_package
    simp only [h]
    have hb : (status == 404) = false := by
      simp [hs]
    simp [hb, ha]
  · intro h ha
    unfold get_license_texts_from_github_repo
    simp only [h]
    have hb : (status == 404) = false := by
      simp [hs]
    simp [hb, ha]

/-- Witness for `selector_missing_hard_error` on the no-anchors network. -/
theorem selector_missing_hard_error_witness :
    get_license_texts_from_crates_io_package netNoAnchors pkgFoo false =
      (.error (.NotCratesIoFileList (cratesListUrl pkgFoo false)),
        [cratesListUrl pkgFoo false]) ∧
    get_license_texts_from_github_repo netNoAnchors (str "https://github.com/o/r") =
      (.error (.NotGithubHomePage (str "https://github.com/o/r")),
        [str "https://github.com/o/r"]) :=
  ⟨(selector_missing_hard_error netNoAnchors (str "https://github.com/o/r") pkgFoo false 200
      [] ⟨none, none, none⟩ (by decide)).1 rfl rfl,
    (selector_missing_hard_error netNoAnchors (str "https://github.com/o/r") pkgFoo false 200
      [] ⟨none, none, none⟩ (by decide)).2 rfl rfl⟩

/-- The texts of the first entry with the given package name. -/
def firstTexts (ls : List (Package × List ByteStr)) (name : ByteStr) :
    Option (List ByteStr) :=
  (ls.find? (fun e => e.1.name == name)).map (fun e => e.2)

/-- `pickCopied` fails only on the empty list. -/
theorem pickCopied_eq_none (xs : List (List ByteStr)) :
    pickCopied xs = none ↔ xs = [] := by
  cases xs with
  | nil => simp [pickCopied]
  | cons a as =>
    simp only [pickCopied]
    rcases pickCopied as with _ | z <;> simp

/-- `pickCopied` returns a member of maximal length. -/
theorem pickCopied_mem_max (xs : List (List ByteStr)) (y : List ByteStr)
    (h : pickCopied xs = some y) : y ∈ xs ∧ ∀ x ∈ xs, x.length ≤ y.length := by
  induction xs generalizing y with
  | nil => simp [pickCopied] at h
  | cons a as ih =>
    rcases hR : pickCopied as with _ | z
    · have hnil : as = [] := (pickCopied_eq_none as).mp hR
      subst hnil
      rw [pickCopied] at h
      simp only [pickCopied, Option.some.injEq] at h
      subst h
      simp
    · rw [pickCopied, hR] at h
      simp only [Option.some.injEq] at h
      obtain ⟨hz1, hz2⟩ := ih z hR
      by_cases hc : z.length < a.length
      · rw [if_pos hc] at h
        subst h
        refine ⟨List.mem_cons_self _ _, ?_⟩
        intro x hx
        rcases List.mem_cons.mp hx with hx | hx
        · subst hx; exact le_refl _
        · exact le_trans (hz2 x hx) (le_of_lt hc)
      · rw [if_neg hc] at h
        subst h
        refine ⟨List.mem_cons_of_mem _ hz1, ?_⟩
        intro x hx
        rcases List.mem_cons.mp hx with hx | hx
        · subst hx; exact le_of_not_lt hc
        · exact hz2 x hx

/-- After `setFirst`, the first entry with the target name holds the new
texts. -/
theorem firstTexts_setFirst (ls : List (Package × List ByteStr)) (name : ByteStr)
    (y : List ByteStr) (h : ∃ e ∈ ls, e.1.name = name) :
    firstTexts (setFirst ls name y) name = some y := by
  induction ls with
  | nil => simp at h
  | cons a as ih =>
    obtain ⟨p, l⟩ := a
    by_cases hn : p.name = name
    · have hb : (p.name == name) = true := by simpa using hn
      simp [setFirst, hb, firstTexts, List.find?]
    · have hb : (p.name == name) = false := by simpa using hn
      have h' : ∃ e ∈ as, e.1.name = name := by
        rcases h with ⟨e, he, hname⟩
        rcases List.mem_cons.mp he with he | he
        · exfalso; subst he; exact hn (by simpa using hname)
        · exact ⟨e, he, hname⟩
      have ihh := ih h'
      simp [setFirst, hb, firstTexts, List.find?] at ihh ⊢
      exact ihh

/-- C3: the copy step for a rule `(copier, copied)` picks, among the resolved
entries named `copied`, texts of maximal document count and overwrites the
`copier` entry's texts with them; a missing `copied` name fails with
`CopiedCrateNotFound`, a missing `copier` name with `CopierCrateNotFound`,
and any copy-loop failure makes the whole run fail before a result is
produced. -/
theorem copy_rules_correct (net : Net) (meta : Metadata) (config : Config)
    (ls : List (Package × List ByteStr)) (copier copied : ByteStr) :
    (ls.filter (fun e => e.1.name == copied) = [] →
      applyCopyRule ls (copier, copied) = .error (.CopiedCrateNotFound copied)) ∧
    (∀ y, pickCopied ((ls.filter (fun e => e.1.name == copied)).map (fun e => e.2)) =
        some y →
      (y ∈ (ls.filter (fun e => e.1.name == copied)).map (fun e => e.2) ∧
        ∀ x ∈ (ls.filter (fun e => e.1.name == copied)).map (fun e => e.2),
          x.length ≤ y.length) ∧
      ((∀ e ∈ ls, e.1.name ≠ copier) →
        applyCopyRule ls (copier, copied) = .error (.CopierCrateNotFound copier)) ∧
      ((∃ e ∈ ls, e.1.name = copier) →
        applyCopyRule ls (copier, copied) = .ok (setFirst ls copier y) ∧
        firstTexts (setFirst ls copier y) copier = some y)) ∧
    (∀ e, resolve_all_packages net config meta.packages = .ok ls →
      applyCopyRules config.license_copying_crates ls = .error e →
      async_from_config net meta config = .err e) := by
  refine ⟨?_, ?_, ?_⟩
  · intro h
    unfold applyCopyRule
    rw [h]
    simp [pickCopied]
  · intro y hy
    refine ⟨pickCopied_mem_max _ y hy, ?_, ?_⟩
    · intro hno
      unfold applyCopyRule
      rw [hy]
      have : ls.any (fun e => e.1.name == copier) = false := by
        simp only [List.any_eq_false]
        intro e he
        simpa using hno e he
      simp [this]
    · intro hyes
      unfold applyCopyRule
      rw [hy]
      have : ls.any (fun e => e.1.name == copier) = true := by
        simp only [List.any_eq_true]
        rcases hyes with ⟨e, he, hn⟩
        exact ⟨e, he, by simpa using hn⟩
      simp only [this, if_true]
      exact ⟨trivial, firstTexts_setFirst ls copier y hyes⟩
  · intro e h0 h1
    unfold async_from_config
    simp only [h0, h1]

/-- Package `a`, carrying two resolved documents in the C3 witness. -/
def pkgA : Package := ⟨str "a-id", str "a", str "1.0.0", none, none, none, str "/m"⟩

/-- Package `b`, carrying no resolved documents in the C3 witness. -/
def pkgB : Package := ⟨str "b-id", str "b", str "1.0.0", none, none, none, str "/m"⟩

/-- Resolved set for the C3 witness: `a` has two documents, `b` none. -/
def lsAB : List (Package × List ByteStr) :=
  [(pkgA, [str "doc1", str "doc2"]), (pkgB, [])]

/-- Witness for `copy_rules_correct`: the rule `b ← a` copies `a`'s two
documents onto `b`, and a rule copying from the absent `zzz` fails with
`CopiedCrateNotFound`. -/
theorem copy_rules_correct_witness :
    applyCopyRule lsAB (str "b", str "a") =
      .ok (setFirst lsAB (str "b") [str "doc1", str "doc2"]) ∧
    firstTexts (setFirst lsAB (str "b") [str "doc1", str "doc2"]) (str "b") =
      some [str "doc1", str "doc2"] ∧
    applyCopyRule lsAB (str "b", str "zzz") =
      .error (.CopiedCrateNotFound (str "zzz")) :=
  ⟨(((copy_rules_correct netDown ⟨[], none⟩ cfgEmpty lsAB (str "b") (str "a")).2.1
        [str "doc1", str "doc2"] (by decide)).2.2 (by decide)).1,
    (((copy_rules_correct netDown ⟨[], none⟩ cfgEmpty lsAB (str "b") (str "a")).2.1
        [str "doc1", str "doc2"] (by decide)).2.2 (by decide)).2,
    (copy_rules_correct netDown ⟨[], none⟩ cfgEmpty lsAB (str "b") (str "zzz")).1
      (by decide)⟩

/-- Every formatted entry is non-empty (it contains the separating space), so
the joined report string is empty exactly when the entry list is. -/
theorem joinStrs_eq_nil_iff (config : Config) (ls : List (Package × List ByteStr)) :
    joinStrs (str ", ") (unlicensedEntries config ls) = [] ↔
      unlicensedEntries config ls = [] := by
  rcases hE : unlicensedEntries config ls with _ | ⟨x, xs⟩
  · simp [joinStrs]
  · have hx : ∃ p, x = formatPackage p := by
      have hmem : x ∈ unlicensedEntries config ls := by rw [hE]; exact List.mem_cons_self _ _
      unfold unlicensedEntries at hmem
      rcases List.mem_map.mp hmem with ⟨e, _, hfmt⟩
      exact ⟨e.1, hfmt.symm⟩
    rcases hx with ⟨p, hp⟩
    have hne : x ≠ [] := by
      rw [hp]
      unfold formatPackage
      intro hc
      have := congrArg List.length hc
      simp [str] at this
    constructor
    · intro h
      exfalso
      cases xs with
      | nil => exact hne (by simpa [joinStrs] using h)
      | cons b bs =>
        rw [joinStrs] at h
        rcases List.append_eq_nil.mp (List.append_eq_nil.mp h).1 with ⟨h1, _⟩
        exact hne h1
    · intro h
      simp at h

/-- C7: after resolution and copying, a package with empty texts is reported
(by its `name version` entry) exactly when its name is not ignored; if any
entry exists the run panics under the strict flag and otherwise returns with
the warning message naming them all, and with no entries it returns quietly. -/
theorem unlicensed_reporting (net : Net) (meta : Metadata) (config : Config)
    (ls0 ls : List (Package × List ByteStr))
    (h0 : resolve_all_packages net config meta.packages = .ok ls0)
    (h1 : applyCopyRules config.license_copying_crates ls0 = .ok ls) :
    (∀ s, s ∈ unlicensedEntries config ls ↔
      ∃ e ∈ ls, e.2 = [] ∧ config.ignored_crates.contains e.1.name = false ∧
        s = formatPackage e.1) ∧
    (unlicensedEntries config ls = [] →
      async_from_config net meta config = .ok none ls) ∧
    (unlicensedEntries config ls ≠ [] →
      async_from_config net meta config =
        (if config.panic_if_no_license_found then
          RunResult.panicked (str "No licenses found for: " ++
            joinStrs (str ", ") (unlicensedEntries config ls))
        else
          RunResult.ok (some (str "No licenses found for: " ++
            joinStrs (str ", ") (unlicensedEntries config ls))) ls)) := by
  refine ⟨?_, ?_, ?_⟩
  · intro s
    unfold unlicensedEntries
    constructor
    · intro hs
      rcases List.mem_map.mp hs with ⟨e, he, hfmt⟩
      rcases List.mem_filter.mp (List.mem_filter.mp he).1 with ⟨hmem, hempty⟩
      refine ⟨e, hmem, by simpa using hempty, ?_, hfmt.symm⟩
      have := (List.mem_filter.mp he).2
      simpa using this
    · intro ⟨e, hmem, hempty, hign, hfmt⟩
      refine List.mem_map.mpr ⟨e, ?_, hfmt.symm⟩
      refine List.mem_filter.mpr ⟨List.mem_filter.mpr ⟨hmem, by simpa using hempty⟩, ?_⟩
      simpa using hign
  · intro h
    unfold async_from_config
    simp only [h0, h1]
    have hj : joinStrs (str ", ") (unlicensedEntries config ls) = [] :=
      (joinStrs_eq_nil_iff config ls).mpr h
    simp [hj]
  · intro h
    unfold async_from_config
    simp only [h0, h1]
    have hj : joinStrs (str ", ") (unlicensedEntries config ls) ≠ [] := by
      intro hc
      exact h ((joinStrs_eq_nil_iff config ls).mp hc)
    rcases hp : config.panic_if_no_license_found with _ | _ <;>
      simp [List.isEmpty_iff, hj, hp]

/-- A configuration ignoring the crate `foo`. -/
def cfgIgnoreFoo : Config := ⟨[], [], [], [str "foo"], false⟩

/-- Witness for `unlicensed_reporting`: with `foo` unresolved and not
ignored the run warns and its entry is reported; with `foo` ignored the
entry list is empty and the run returns quietly. -/
theorem unlicensed_reporting_witness :
    str "foo 1.2.3" ∈ unlicensedEntries cfgEmpty [(pkgFoo, [])] ∧
    async_from_config netDown ⟨[pkgFoo], none⟩ cfgEmpty =
      .ok (some (str "No licenses found for: " ++ str "foo 1.2.3")) [(pkgFoo, [])] ∧
    async_from_config netDown ⟨[pkgFoo], none⟩ cfgIgnoreFoo = .ok none [(pkgFoo, [])] :=
  ⟨((unlicensed_reporting netDown ⟨[pkgFoo], none⟩ cfgEmpty [(pkgFoo, [])] [(pkgFoo, [])]
        (by decide) (by decide)).1 (str "foo 1.2.3")).mpr
      ⟨(pkgFoo, []), by decide, by decide, by decide, by decide⟩,
    by
      have := (unlicensed_reporting netDown ⟨[pkgFoo], none⟩ cfgEmpty [(pkgFoo, [])]
        [(pkgFoo, [])] (by decide) (by decide)).2.2 (by decide)
      rw [this]
      decide,
    (unlicensed_reporting netDown ⟨[pkgFoo], none⟩ cfgIgnoreFoo [(pkgFoo, [])]
      [(pkgFoo, [])] (by decide) (by decide)).2.1 (by decide)⟩

/-- Resolution pairs each package of the input list, in order. -/
theorem resolve_all_fst (net : Net) (config : Config) (ps : List Package)
    (ls : List (Package × List ByteStr))
    (h : resolve_all_packages net config ps = .ok ls) :
    ls.map (fun e => e.1) = ps := by
  induction ps generalizing ls with
  | nil =>
    unfold resolve_all_packages at h
    simp only [Except.ok.injEq] at h
    subst h
    rfl
  | cons p ps ih =>
    unfold resolve_all_packages at h
    rcases hG : (get_license_texts_from_package net p config).1 with e | l
    · rw [hG] at h; simp at h
    · rw [hG] at h
      simp only at h
      rcases hR : resolve_all_packages net config ps with e | rest
      · rw [hR] at h; simp at h
      · rw [hR] at h
        simp only [Except.ok.injEq] at h
        subst h
        simp [ih rest hR]

/-- `setFirst` never changes the package components. -/
theorem setFirst_fst (ls : List (Package × List ByteStr)) (name : ByteStr)
    (y : List ByteStr) :
    (setFirst ls name y).map (fun e => e.1) = ls.map (fun e => e.1) := by
  induction ls with
  | nil => rfl
  | cons a as ih =>
    obtain ⟨p, l⟩ := a
    unfold setFirst
    rcases p.name == name with _ | _ <;> simp [ih]

/-- One copy step never changes the package components. -/
theorem applyCopyRule_fst (ls ls' : List (Package × List ByteStr))
    (rule : ByteStr × ByteStr) (h : applyCopyRule ls rule = .ok ls') :
    ls'.map (fun e => e.1) = ls.map (fun e => e.1) := by
  unfold applyCopyRule at h
  rcases hP : pickCopied ((ls.filter (fun e => e.1.name == rule.2)).map (fun e => e.2)) with
    _ | y
  · rw [hP] at h; simp at h
  · rw [hP] at h
    simp only at h
    rcases hA : ls.any (fun e => e.1.name == rule.1) with _ | _
    · rw [hA] at h; simp at h
    · rw [hA] at h
      simp only [if_true, Except.ok.injEq] at h
      subst h
      exact setFirst_fst ls rule.1 y

/-- The whole copy loop never changes the package components. -/
theorem applyCopyRules_fst (rules : List (ByteStr × ByteStr))
    (ls ls' : List (Package × List ByteStr))
    (h : applyCopyRules rules ls = .ok ls') :
    ls'.map (fun e => e.1) = ls.map (fun e => e.1) := by
  induction rules generalizing ls with
  | nil =>
    unfold applyCopyRules at h
    simp only [Except.ok.injEq] at h
    subst h
    rfl
  | cons r rs ih =>
    unfold applyCopyRules at h
    rcases hA : applyCopyRule ls r with e | ls2
    · rw [hA] at h; simp at h
    · rw [hA] at h
      simp only at h
      rw [ih ls2 h]
      exact applyCopyRule_fst ls ls2 r hA

/-- C8 (amended): the orchestrator never consults the resolve graph — the
run is identical whatever resolution info the metadata carries, and a
successful run's result pairs exactly the metadata's package list, in its
original order. -/
theorem package_selection_ignores_resolve (net : Net) (config : Config)
    (ps : List Package) (r1 r2 : Option ResolveData) :
    async_from_config net ⟨ps, r1⟩ config = async_from_config net ⟨ps, r2⟩ config ∧
    (∀ w ls, async_from_config net ⟨ps, r1⟩ config = .ok w ls →
      ls.map (fun e => e.1) = ps) := by
  constructor
  · rfl
  · intro w ls h
    unfold async_from_config at h
    simp only at h
    rcases h0 : resolve_all_packages net config ps with e | ls0
    · rw [h0] at h; simp at h
    · rw [h0] at h
      simp only at h
      rcases h1 : applyCopyRules config.license_copying_crates ls0 with e | ls1
      · rw [h1] at h; simp at h
      · rw [h1] at h
        simp only at h
        have hfst : ls1.map (fun e => e.1) = ps := by
          rw [applyCopyRules_fst _ _ _ h1]
          exact resolve_all_fst net config ps ls0 h0
        rcases hj : (joinStrs (str ", ") (unlicensedEntries config ls1)).isEmpty with _ | _
        · rw [hj] at h
          simp only [Bool.false_eq_true, if_false] at h
          rcases hp : config.panic_if_no_license_found with _ | _
          · rw [hp] at h
            simp only [Bool.false_eq_true, if_false, RunResult.ok.injEq] at h
            rw [← h.2]
            exact hfst
          · rw [hp] at h
            simp at h
        · rw [hj] at h
          simp only [if_true, RunResult.ok.injEq] at h
          rw [← h.2]
          exact hfst

/-- Witness for `package_selection_ignores_resolve` at a one-package
metadata carrying resolution info. -/
theorem package_selection_ignores_resolve_witness :
    async_from_config netDown ⟨[pkgFoo], some ⟨some (str "foo-id"), []⟩⟩ cfgEmpty =
      async_from_config netDown ⟨[pkgFoo], none⟩ cfgEmpty ∧
    [(pkgFoo, ([] : List ByteStr))].map (fun e => e.1) = [pkgFoo] :=
  ⟨(package_selection_ignores_resolve netDown cfgEmpty [pkgFoo]
      (some ⟨some (str "foo-id"), []⟩) none).1,
    (package_selection_ignores_resolve netDown cfgEmpty [pkgFoo]
      (some ⟨some (str "foo-id"), []⟩) none).2
      (some (str "No licenses found for: " ++ str "foo 1.2.3")) [(pkgFoo, [])]
      (by decide)⟩

/-- The root package of the C8 counterexample graph. -/
def pkgRoot : Package := ⟨str "root-id", str "root", str "1.0.0", none, none, none, str "/m"⟩

/-- A package present in the metadata but unreachable from the root. -/
def pkgStray : Package := ⟨str "stray-id", str "stray", str "1.0.0", none, none, none, str "/m"⟩

/-- Metadata whose resolve graph has a root with no dependencies and a
second, unreachable package. -/
def metaStray : Metadata :=
  ⟨[pkgRoot, pkgStray],
    some ⟨some (str "root-id"), [⟨str "root-id", []⟩, ⟨str "stray-id", []⟩]⟩⟩

/-- C8 counterexample: with resolution info present, the spec's Graph Walker
would select only the root-reachable packages, but the code processes every
package of the metadata — the unreachable `stray` included. -/
theorem package_selection_counterexample :
    specSelectPackages metaStray = [pkgRoot] ∧
    selectedPackages metaStray = [pkgRoot, pkgStray] ∧
    selectedPackages metaStray ≠ specSelectPackages metaStray := by
  decide

/-- The byte emitted first by `encStr` is a `str`-family header, never the
`nil` byte 192. -/
theorem encStr_head (s : ByteStr) :
    ∃ b t, encStr s = b :: t ∧ b ≠ 192 := by
  unfold encStr
  by_cases h1 : s.length < 32
  · rw [if_pos h1]
    exact ⟨160 + s.length, s, rfl, by omega⟩
  · rw [if_neg h1]
    by_cases h2 : s.length < 256
    · rw [if_pos h2]
      exact ⟨217, s.length :: s, rfl, by omega⟩
    · rw [if_neg h2]
      by_cases h3 : s.length < 65536
      · rw [if_pos h3]
        exact ⟨218, encNat16 s.length ++ s, rfl, by omega⟩
      · rw [if_neg h3]
        exact ⟨219, encNat32 s.length ++ s, rfl, by omega⟩

/-- Decoding the header of an encoded string recovers its length and leaves
the payload and the continuation. -/
theorem decStrHeader_enc (s : ByteStr) (rest : List Nat) (h : strWF s) :
    decStrHeader (encStr s ++ rest) = some (s.length, s ++ rest) := by
  have hb : s.length < 4294967296 := h
  unfold encStr
  by_cases h1 : s.length < 32
  · rw [if_pos h1]
    show decStrHeader ((160 + s.length) :: (s ++ rest)) = _
    simp only [decStrHeader]
    rw [if_pos (by omega : 160 ≤ 160 + s.length ∧ 160 + s.length ≤ 191)]
    simp
  · rw [if_neg h1]
    by_cases h2 : s.length < 256
    · rw [if_pos h2]
      show decStrHeader (217 :: s.length :: (s ++ rest)) = _
      simp only [decStrHeader]
      simp
    · rw [if_neg h2]
      by_cases h3 : s.length < 65536
      · rw [if_pos h3]
        show decStrHeader
          (218 :: s.length / 256 % 256 :: s.length % 256 :: (s ++ rest)) = _
        simp only [decStrHeader]
        simp
        omega
      · rw [if_neg h3]
        show decStrHeader (219 :: s.length / 16777216 % 256 :: s.length / 65536 % 256 ::
          s.length / 256 % 256 :: s.length % 256 :: (s ++ rest)) = _
        simp only [decStrHeader]
        simp
        omega

/-- Decoding an encoded string recovers it and leaves the continuation. -/
theorem decStr_enc (s : ByteStr) (rest : List Nat) (h : strWF s) :
    decStr (encStr s ++ rest) = some (s, rest) := by
  unfold decStr
  rw [decStrHeader_enc s rest h]
  simp only
  rw [if_pos (by simp), List.take_left, List.drop_left]

/-- Decoding an encoded optional string recovers it. -/
theorem decOptStr_enc (o : Option ByteStr) (rest : List Nat) (h : optStrWF o) :
    decOptStr (encOptStr o ++ rest) = some (o, rest) := by
  cases o with
  | none =>
    show decOptStr (192 :: rest) = _
    simp only [decOptStr]
    simp
  | some s =>
    show decOptStr (encStr s ++ rest) = _
    rcases encStr_head s with ⟨b, t, he, hbne⟩
    rw [he]
    show decOptStr (b :: (t ++ rest)) = _
    simp only [decOptStr]
    rw [if_neg hbne]
    have hd : decStr (b :: (t ++ rest)) = some (s, rest) := by
      have hds := decStr_enc s rest h
      rw [he] at hds
      simpa using hds
    rw [hd]
    rfl

/-- Decoding an encoded array header recovers the length. -/
theorem decArrayHeader_enc (n : Nat) (rest : List Nat) (h : n < 4294967296) :
    decArrayHeader (encArrayHeader n ++ rest) = some (n, rest) := by
  unfold encArrayHeader
  by_cases h1 : n < 16
  · rw [if_pos h1]
    show decArrayHeader ((144 + n) :: rest) = _
    simp only [decArrayHeader]
    rw [if_pos (by omega : 144 ≤ 144 + n ∧ 144 + n ≤ 159)]
    simp
  · rw [if_neg h1]
    by_cases h2 : n < 65536
    · rw [if_pos h2]
      show decArrayHeader (220 :: n / 256 % 256 :: n % 256 :: rest) = _
      simp only [decArrayHeader]
      simp
      omega
    · rw [if_neg h2]
      show decArrayHeader (221 :: n / 16777216 % 256 :: n / 65536 % 256 ::
        n / 256 % 256 :: n % 256 :: rest) = _
      simp only [decArrayHeader]
      simp
      omega

/-- Decoding an encoded map header recovers the size. -/
theorem decMapHeader_enc (n : Nat) (rest : List Nat) (h : n < 4294967296) :
    decMapHeader (encMapHeader n ++ rest) = some (n, rest) := by
  unfold encMapHeader
  by_cases h1 : n < 16
  · rw [if_pos h1]
    show decMapHeader ((128 + n) :: rest) = _
    simp only [decMapHeader]
    rw [if_pos (by omega : 128 ≤ 128 + n ∧ 128 + n ≤ 143)]
    simp
  · rw [if_neg h1]
    by_cases h2 : n < 65536
    · rw [if_pos h2]
      show decMapHeader (222 :: n / 256 % 256 :: n % 256 :: rest) = _
      simp only [decMapHeader]
      simp
      omega
    · rw [if_neg h2]
      show decMapHeader (223 :: n / 16777216 % 256 :: n / 65536 % 256 ::
        n / 256 % 256 :: n % 256 :: rest) = _
      simp only [decMapHeader]
      simp
      omega

/-- Decoding a run of encoded strings recovers them. -/
theorem decStrs_enc (ts : List ByteStr) (rest : List Nat) (h : ∀ s ∈ ts, strWF s) :
    decStrs ts.length ((ts.map encStr).flatten ++ rest) = some (ts, rest) := by
  induction ts with
  | nil => simp [decStrs]
  | cons t ts ih =>
    show decStrs (ts.length + 1) (encStr t ++ (ts.map encStr).flatten ++ rest) = _
    unfold decStrs
    rw [List.append_assoc,
      decStr_enc t ((ts.map encStr).flatten ++ rest) (h t (List.mem_cons_self _ _))]
    simp only
    rw [ih (fun s hs => h s (List.mem_cons_of_mem _ hs))]
    rfl

/-- Decoding an encoded text array recovers it. -/
theorem decTexts_enc (ts : List ByteStr) (rest : List Nat)
    (hlen : ts.length < 4294967296) (h : ∀ s ∈ ts, strWF s) :
    decTexts (encTexts ts ++ rest) = some (ts, rest) := by
  unfold encTexts decTexts
  rw [List.append_assoc, decArrayHeader_enc ts.length _ hlen]
  simp only
  exact decStrs_enc ts rest h

/-- Decoding a named string field encoded with its key recovers the value. -/
theorem decField_enc (key v : ByteStr) (rest : List Nat) (hk : strWF key)
    (hv : strWF v) :
    decField key (encStr key ++ (encStr v ++ rest)) = some (v, rest) := by
  unfold decField
  rw [decStr_enc key _ hk]
  simp only [if_pos rfl]
  exact decStr_enc v rest hv

/-- Decoding a named optional-string field recovers the value. -/
theorem decOptField_enc (key : ByteStr) (v : Option ByteStr) (rest : List Nat)
    (hk : strWF key) (hv : optStrWF v) :
    decOptField key (encStr key ++ (encOptStr v ++ rest)) = some (v, rest) := by
  unfold decOptField
  rw [decStr_enc key _ hk]
  simp only [if_pos rfl]
  exact decOptStr_enc v rest hv

/-- Decoding an encoded package recovers it. -/
theorem decPackage_enc (p : Package) (rest : List Nat) (h : packageWF p) :
    decPackage (encPackage p ++ rest) = some (p, rest) := by
  obtain ⟨h1, h2, h3, h4, h5, h6, h7⟩ := h
  unfold encPackage decPackage
  simp only [List.append_assoc]
  rw [decMapHeader_enc 7 _ (by omega)]
  simp only [if_pos rfl]
  rw [decField_enc _ _ _ (by decide) h1]
  simp only
  rw [decField_enc _ _ _ (by decide) h2]
  simp only
  rw [decField_enc _ _ _ (by decide) h3]
  simp only
  rw [decOptField_enc _ _ _ (by decide) h4]
  simp only
  rw [decOptField_enc _ _ _ (by decide) h5]
  simp only
  rw [decOptField_enc _ _ _ (by decide) h6]
  simp only
  rw [decField_enc _ _ _ (by decide) h7]
  simp

/-- Decoding an encoded pair recovers it. -/
theorem decPair_enc (e : Package × List ByteStr) (rest : List Nat)
    (hp : packageWF e.1) (hlen : e.2.length < 4294967296) (ht : ∀ s ∈ e.2, strWF s) :
    decPair (encPair e ++ rest) = some (e, rest) := by
  unfold encPair decPair
  simp only [List.append_assoc]
  rw [decArrayHeader_enc 2 _ (by omega)]
  simp only [if_pos rfl]
  rw [decPackage_enc e.1 _ hp]
  simp only
  rw [decTexts_enc e.2 rest hlen ht]
  simp

/-- Decoding a run of encoded pairs recovers them. -/
theorem decPairs_enc (lr : List (Package × List ByteStr)) (rest : List Nat)
    (h : ∀ e ∈ lr, packageWF e.1 ∧ e.2.length < 4294967296 ∧ ∀ s ∈ e.2, strWF s) :
    decPairs lr.length ((lr.map encPair).flatten ++ rest) = some (lr, rest) := by
  induction lr with
  | nil => simp [decPairs]
  | cons e es ih =>
    show decPairs (es.length + 1) (encPair e ++ (es.map encPair).flatten ++ rest) = _
    unfold decPairs
    obtain ⟨hp, hlen, ht⟩ := h e (List.mem_cons_self _ _)
    rw [List.append_assoc, decPair_enc e _ hp hlen ht]
    simp only
    rw [ih (fun x hx => h x (List.mem_cons_of_mem _ hx))]
    rfl

/-- C5: `from_bytes ∘ to_bytes` is the identity — decoding a serialized
result succeeds and reproduces the (package, texts) pairs structurally, in
order, with the texts of each pair in order. -/
theorem serialization_round_trip (lr : List (Package × List ByteStr)) (h : lrWF lr) :
    from_bytes (to_bytes lr) = some lr := by
  obtain ⟨hlen, hall⟩ := h
  unfold to_bytes from_bytes
  rw [decArrayHeader_enc lr.length _ hlen]
  simp only
  have := decPairs_enc lr [] hall
  rw [List.append_nil] at this
  rw [this]
  rfl

/-- Witness for `serialization_round_trip` at a two-package result with
multi-document texts and both present and absent optional fields. -/
theorem serialization_round_trip_witness :
    from_bytes (to_bytes [(⟨str "a-id", str "a", str "1.0.0",
        some (str "https://github.com/o/r"), some (str "MIT"), none, str "/m"⟩,
        [str "doc1", str "doc2"]), (pkgFoo, [])]) =
      some [(⟨str "a-id", str "a", str "1.0.0",
        some (str "https://github.com/o/r"), some (str "MIT"), none, str "/m"⟩,
        [str "doc1", str "doc2"]), (pkgFoo, [])] :=
  serialization_round_trip _ (by decide)

end LicenseRetrieverModel
